import Mathlib

/-!
Verification of the ADASS 2019 cross-language 2D array benchmark repository.

The repository times ~10 small programs, each implementing the kernel
"add the sum of row/column index to every element of a 2D array", driven
by a Python harness (Run.py) that builds, runs and times each program.

This file gives a shallow embedding of:
  - the Python kernel variants: subr from csub.py (plain nested loops),
    subr from csubnpv.py (sliced numpy vector operations, with an
    nx > ny split), subr from csubnpna.py (one-line numpy broadcasting),
    and subr from csubnp-numba.py (numba-decorated copy of the plain loop);
  - the result check loop at the end of csub.py;
  - ExecuteCommand, BuildAndTimeProgram and ListVersion from Run.py;
  - the driver loop of Run.py: the results table updates, the benchmark
    (baseline) search, the summary lines and the CSV matrix output.

Python floats are modelled as rationals, numpy arrays as total functions
from (row, column) pairs to rationals, and the two arrays passed to a
kernel call as a two-slot heap so that writes name the array they target.
External subprocesses are modelled by an environment mapping each command
to its spawn outcome and observed wall-clock seconds.
-/

namespace ADASS

/-- 2D arrays of floating point values, modelled as total functions from
(row, column) index pairs to rationals. -/
abbrev Arr : Type := Nat → Nat → ℚ

/-- The two numpy arrays passed to a kernel call: the input array `ina`
and the output array `out` (distinct arrays in every call the test
programs make). -/
inductive Slot : Type
  | ina
  | out
deriving DecidableEq

/-- The state seen by a kernel call: the contents of both arrays. -/
abbrev Heap : Type := Slot → Arr

/-- Write one element of a 2D array: `a[iy,ix] = v`. -/
def upd (a : Arr) (iy ix : Nat) (v : ℚ) : Arr :=
  fun y x => if y = iy ∧ x = ix then v else a y x

/-- Write one element of one of the two arrays. -/
def hupd (h : Heap) (s : Slot) (iy ix : Nat) (v : ℚ) : Heap :=
  fun t => if t = s then upd (h t) iy ix v else h t

/-- Slice assignment to part of a row, as in `out[iy,0:nx] = ...` of
csubnpv.py: element `x < nx` of row `iy` of the target array receives
`f x`. -/
def hsetRow (h : Heap) (s : Slot) (iy nx : Nat) (f : Nat → ℚ) : Heap :=
  fun t => if t = s then (fun y x => if y = iy ∧ x < nx then f x else h t y x) else h t

/-- Slice assignment to part of a column, as in `out[0:ny,ix] = ...` of
csubnpv.py. -/
def hsetCol (h : Heap) (s : Slot) (ix ny : Nat) (f : Nat → ℚ) : Heap :=
  fun t => if t = s then (fun y x => if x = ix ∧ y < ny then f y else h t y x) else h t

/-- Whole-array assignment `out[:] = ...` of csubnpna.py: every element
of the (ny, nx) shape of the target array is written. -/
def hsetAll (h : Heap) (s : Slot) (ny nx : Nat) (f : Nat → Nat → ℚ) : Heap :=
  fun t => if t = s then (fun y x => if y < ny ∧ x < nx then f y x else h t y x) else h t

/-- One iteration of the outer row loop of `subr` in csub.py: the inner
loop `for ix in range(nx): out[iy,ix] = ina[iy,ix] + ix + iy`. -/
def subrRow (iy nx : Nat) (h : Heap) : Heap :=
  (List.range nx).foldl
    (fun h2 ix => hupd h2 .out iy ix (h2 .ina iy ix + (ix : ℚ) + (iy : ℚ))) h

/-- `subr` from csub.py:
`for iy in range(ny): for ix in range(nx): out[iy,ix] = ina[iy,ix] + ix + iy`. -/
def subr (nx ny : Nat) (h : Heap) : Heap :=
  (List.range ny).foldl (fun h2 iy => subrRow iy nx h2) h

/-- One iteration of the `iy` loop in the `nx > ny` branch of `subr` in
csubnpv.py: `out[iy,0:nx] = ina[iy,0:nx] + incr` followed by
`incr = incr + ones` where `ones` is filled with 1. -/
def npvRowStep (nx : Nat) (s : (Nat → ℚ) × Heap) (iy : Nat) : (Nat → ℚ) × Heap :=
  (fun i => s.1 i + 1, hsetRow s.2 .out iy nx (fun ix => s.2 .ina iy ix + s.1 ix))

/-- One iteration of the `ix` loop in the other branch of `subr` in
csubnpv.py: `out[0:ny,ix] = ina[0:ny,ix] + incr` followed by
`incr = incr + ones`. -/
def npvColStep (ny : Nat) (s : (Nat → ℚ) × Heap) (ix : Nat) : (Nat → ℚ) × Heap :=
  (fun i => s.1 i + 1, hsetCol s.2 .out ix ny (fun iy => s.2 .ina iy ix + s.1 iy))

/-- `subr` from csubnpv.py: slices along the longer direction of the
array; `incr` starts as `numpy.arange(n)` = `[0,1,...,n-1]`. -/
def subrNpv (nx ny : Nat) (h : Heap) : Heap :=
  if ny < nx then
    ((List.range ny).foldl (npvRowStep nx) (fun i => (i : ℚ), h)).2
  else
    ((List.range nx).foldl (npvColStep ny) (fun i => (i : ℚ), h)).2

/-- `subr` from csubnpna.py:
`out[:] = ina + numpy.arange(nx)[NA,:] + numpy.arange(ny)[:,NA]`;
broadcasting makes element (iy, ix) of the added term `ix + iy`. -/
def subrNpna (nx ny : Nat) (h : Heap) : Heap :=
  hsetAll h .out ny nx (fun iy ix => h .ina iy ix + (ix : ℚ) + (iy : ℚ))

/-- `subr` from csubnp-numba.py: the `@numba.jit` decorated function,
whose body is identical to the plain nested loop of csub.py. -/
def subrNumba (nx ny : Nat) (h : Heap) : Heap :=
  (List.range ny).foldl (fun h2 iy => subrRow iy nx h2) h

/-- The repeat loop of the main routine of csub.py:
`for irpt in range(nrpt): subr(ina,nx,ny,out)`. -/
def repeatSubr (nx ny nrpt : Nat) (h : Heap) : Heap :=
  (List.range nrpt).foldl (fun h2 _ => subr nx ny h2) h

/-- The result check loop at the end of csub.py: `error` ends up True
exactly when some in-range cell has `out[iy,ix] != ina[iy,ix] + (ix + iy)`
(the loop breaks at the first mismatch, which does not change the final
flag value). -/
def checkError (nx ny : Nat) (h : Heap) : Bool :=
  (List.range ny).any fun iy => (List.range nx).any fun ix =>
    decide (h Slot.out iy ix ≠ h Slot.ina iy ix + (ix : ℚ) + (iy : ℚ))

/-! ### Value and frame lemmas for the kernel variants -/

theorem upd_apply (a : Arr) (iy ix y x : Nat) (v : ℚ) :
    upd a iy ix v y x = if y = iy ∧ x = ix then v else a y x := rfl

theorem hupd_same (h : Heap) (s : Slot) (iy ix : Nat) (v : ℚ) :
    hupd h s iy ix v s = upd (h s) iy ix v := by
  simp [hupd]

theorem hupd_other (h : Heap) (s t : Slot) (iy ix : Nat) (v : ℚ) (hts : t ≠ s) :
    hupd h s iy ix v t = h t := by
  simp [hupd, hts]

theorem subrRow_succ (iy n : Nat) (h : Heap) :
    subrRow iy (n + 1) h =
      hupd (subrRow iy n h) Slot.out iy n
        (subrRow iy n h Slot.ina iy n + (n : ℚ) + (iy : ℚ)) := by
  unfold subrRow
  rw [List.range_succ, List.foldl_append, List.foldl_cons, List.foldl_nil]

theorem subr_succ (nx n : Nat) (h : Heap) :
    subr nx (n + 1) h = subrRow n nx (subr nx n h) := by
  unfold subr
  rw [List.range_succ, List.foldl_append, List.foldl_cons, List.foldl_nil]

theorem subrRow_ina (iy nx : Nat) (h : Heap) : subrRow iy nx h Slot.ina = h Slot.ina := by
  induction nx with
  | zero => rfl
  | succ n ih =>
      rw [subrRow_succ, hupd_other _ _ _ _ _ _ (by simp)]
      exact ih

theorem subrRow_out (iy nx : Nat) (h : Heap) (y x : Nat) :
    subrRow iy nx h Slot.out y x =
      if y = iy ∧ x < nx then h Slot.ina iy x + (x : ℚ) + (iy : ℚ)
      else h Slot.out y x := by
  induction nx with
  | zero => simp [subrRow]
  | succ n ih =>
      rw [subrRow_succ, hupd_same, upd_apply, subrRow_ina]
      by_cases hyx : y = iy ∧ x = n
      · obtain ⟨h1, h2⟩ := hyx
        subst h1; subst h2
        rw [if_pos ⟨rfl, rfl⟩, if_pos ⟨rfl, by omega⟩]
      · rw [if_neg hyx, ih]
        by_cases hy : y = iy
        · subst hy
          have hxn : x ≠ n := fun hc => hyx ⟨rfl, hc⟩
          by_cases hx : x < n
          · rw [if_pos ⟨rfl, hx⟩, if_pos ⟨rfl, by omega⟩]
          · rw [if_neg (by omega), if_neg (by omega)]
        · rw [if_neg (by tauto), if_neg (by tauto)]

theorem subr_ina (nx ny : Nat) (h : Heap) : subr nx ny h Slot.ina = h Slot.ina := by
  induction ny with
  | zero => rfl
  | succ n ih =>
      rw [subr_succ, subrRow_ina]
      exact ih

theorem subr_out (nx ny : Nat) (h : Heap) (y x : Nat) :
    subr nx ny h Slot.out y x =
      if y < ny ∧ x < nx then h Slot.ina y x + (x : ℚ) + (y : ℚ)
      else h Slot.out y x := by
  induction ny with
  | zero => simp [subr]
  | succ n ih =>
      rw [subr_succ, subrRow_out, subr_ina, ih]
      by_cases hy : y = n
      · subst hy
        by_cases hx : x < nx
        · rw [if_pos ⟨rfl, hx⟩, if_pos ⟨by omega, hx⟩]
        · rw [if_neg (by tauto), if_neg (by tauto), if_neg (by tauto)]
      · rw [if_neg (by tauto)]
        by_cases hylt : y < n
        · by_cases hx : x < nx
          · rw [if_pos ⟨hylt, hx⟩, if_pos ⟨by omega, hx⟩]
          · rw [if_neg (by tauto), if_neg (by tauto)]
        · rw [if_neg (by omega), if_neg (by omega)]

theorem hsetRow_same (h : Heap) (s : Slot) (iy nx : Nat) (f : Nat → ℚ) :
    hsetRow h s iy nx f s = fun y x => if y = iy ∧ x < nx then f x else h s y x := by
  simp [hsetRow]

theorem hsetRow_other (h : Heap) (s t : Slot) (iy nx : Nat) (f : Nat → ℚ) (hts : t ≠ s) :
    hsetRow h s iy nx f t = h t := by
  simp [hsetRow, hts]

theorem hsetCol_same (h : Heap) (s : Slot) (ix ny : Nat) (f : Nat → ℚ) :
    hsetCol h s ix ny f s = fun y x => if x = ix ∧ y < ny then f y else h s y x := by
  simp [hsetCol]

theorem hsetCol_other (h : Heap) (s t : Slot) (ix ny : Nat) (f : Nat → ℚ) (hts : t ≠ s) :
    hsetCol h s ix ny f t = h t := by
  simp [hsetCol, hts]

theorem hsetAll_same (h : Heap) (s : Slot) (ny nx : Nat) (f : Nat → Nat → ℚ) :
    hsetAll h s ny nx f s = fun y x => if y < ny ∧ x < nx then f y x else h s y x := by
  simp [hsetAll]

theorem hsetAll_other (h : Heap) (s t : Slot) (ny nx : Nat) (f : Nat → Nat → ℚ) (hts : t ≠ s) :
    hsetAll h s ny nx f t = h t := by
  simp [hsetAll, hts]

theorem npvRows_succ (nx k : Nat) (s0 : (Nat → ℚ) × Heap) :
    (List.range (k + 1)).foldl (npvRowStep nx) s0 =
      npvRowStep nx ((List.range k).foldl (npvRowStep nx) s0) k := by
  rw [List.range_succ, List.foldl_append, List.foldl_cons, List.foldl_nil]

theorem npvCols_succ (ny k : Nat) (s0 : (Nat → ℚ) × Heap) :
    (List.range (k + 1)).foldl (npvColStep ny) s0 =
      npvColStep ny ((List.range k).foldl (npvColStep ny) s0) k := by
  rw [List.range_succ, List.foldl_append, List.foldl_cons, List.foldl_nil]

theorem npvRows_spec (nx : Nat) (incr0 : Nat → ℚ) (h : Heap) (k : Nat) :
    (∀ i, ((List.range k).foldl (npvRowStep nx) (incr0, h)).1 i = incr0 i + (k : ℚ))
  ∧ ((List.range k).foldl (npvRowStep nx) (incr0, h)).2 Slot.ina = h Slot.ina
  ∧ ∀ y x, ((List.range k).foldl (npvRowStep nx) (incr0, h)).2 Slot.out y x =
      if y < k ∧ x < nx then h Slot.ina y x + (incr0 x + (y : ℚ))
      else h Slot.out y x := by
  induction k with
  | zero =>
      refine ⟨fun i => by simp, rfl, fun y x => by simp⟩
  | succ n ih =>
      obtain ⟨h1, h2, h3⟩ := ih
      rw [npvRows_succ]
      simp only [npvRowStep]
      refine ⟨?_, ?_, ?_⟩
      · intro i
        rw [h1]
        push_cast
        ring
      · rw [hsetRow_other _ _ _ _ _ _ (by simp)]
        exact h2
      · intro y x
        simp only [hsetRow_same]
        by_cases hyx : y = n ∧ x < nx
        · obtain ⟨hy, hx⟩ := hyx
          subst hy
          rw [if_pos ⟨rfl, hx⟩, if_pos ⟨by omega, hx⟩, h2, h1]
        · rw [if_neg hyx, h3]
          by_cases hlt : y < n ∧ x < nx
          · rw [if_pos hlt, if_pos ⟨by omega, hlt.2⟩]
          · rw [if_neg hlt, if_neg (by omega)]

theorem npvCols_spec (ny : Nat) (incr0 : Nat → ℚ) (h : Heap) (k : Nat) :
    (∀ i, ((List.range k).foldl (npvColStep ny) (incr0, h)).1 i = incr0 i + (k : ℚ))
  ∧ ((List.range k).foldl (npvColStep ny) (incr0, h)).2 Slot.ina = h Slot.ina
  ∧ ∀ y x, ((List.range k).foldl (npvColStep ny) (incr0, h)).2 Slot.out y x =
      if x < k ∧ y < ny then h Slot.ina y x + (incr0 y + (x : ℚ))
      else h Slot.out y x := by
  induction k with
  | zero =>
      refine ⟨fun i => by simp, rfl, fun y x => by simp⟩
  | succ n ih =>
      obtain ⟨h1, h2, h3⟩ := ih
      rw [npvCols_succ]
      simp only [npvColStep]
      refine ⟨?_, ?_, ?_⟩
      · intro i
        rw [h1]
        push_cast
        ring
      · rw [hsetCol_other _ _ _ _ _ _ (by simp)]
        exact h2
      · intro y x
        simp only [hsetCol_same]
        by_cases hyx : x = n ∧ y < ny
        · obtain ⟨hx, hy⟩ := hyx
          subst hx
          rw [if_pos ⟨rfl, hy⟩, if_pos ⟨by omega, hy⟩, h2, h1]
        · rw [if_neg hyx, h3]
          by_cases hlt : x < n ∧ y < ny
          · rw [if_pos hlt, if_pos ⟨by omega, hlt.2⟩]
          · rw [if_neg hlt, if_neg (by omega)]

theorem subrNpv_ina (nx ny : Nat) (h : Heap) : subrNpv nx ny h Slot.ina = h Slot.ina := by
  unfold subrNpv
  by_cases hc : ny < nx
  · rw [if_pos hc]
    exact (npvRows_spec nx _ h ny).2.1
  · rw [if_neg hc]
    exact (npvCols_spec ny _ h nx).2.1

theorem subrNpna_ina (nx ny : Nat) (h : Heap) : subrNpna nx ny h Slot.ina = h Slot.ina := by
  unfold subrNpna
  rw [hsetAll_other _ _ _ _ _ _ (by simp)]

theorem subrNumba_eq_subr (nx ny : Nat) (h : Heap) : subrNumba nx ny h = subr nx ny h := rfl

theorem subrNpv_out (nx ny : Nat) (h : Heap) (y x : Nat) :
    subrNpv nx ny h Slot.out y x =
      if y < ny ∧ x < nx then h Slot.ina y x + (x : ℚ) + (y : ℚ)
      else h Slot.out y x := by
  unfold subrNpv
  by_cases hc : ny < nx
  · rw [if_pos hc, (npvRows_spec nx _ h ny).2.2 y x]
    by_cases hyx : y < ny ∧ x < nx
    · rw [if_pos hyx, if_pos hyx]
      ring
    · rw [if_neg hyx, if_neg hyx]
  · rw [if_neg hc, (npvCols_spec ny _ h nx).2.2 y x]
    by_cases hyx : y < ny ∧ x < nx
    · rw [if_pos ⟨hyx.2, hyx.1⟩, if_pos hyx]
      ring
    · rw [if_neg (by tauto), if_neg hyx]

theorem subrNpna_out (nx ny : Nat) (h : Heap) (y x : Nat) :
    subrNpna nx ny h Slot.out y x =
      if y < ny ∧ x < nx then h Slot.ina y x + (x : ℚ) + (y : ℚ)
      else h Slot.out y x := by
  unfold subrNpna
  rw [hsetAll_same]

/-- C1: for every call `subr(ina, nx, ny, out)` of the kernel of csub.py,
on return every in-range element of `out` equals the corresponding
element of `ina` plus the sum of its two indices:
`out[iy,ix] = ina[iy,ix] + ix + iy` for `iy < ny`, `ix < nx`. -/
theorem subr_element_value (nx ny : Nat) (h : Heap) (iy ix : Nat)
    (hy : iy < ny) (hx : ix < nx) :
    subr nx ny h Slot.out iy ix = h Slot.ina iy ix + (ix : ℚ) + (iy : ℚ) := by
  rw [subr_out, if_pos ⟨hy, hx⟩]

/-- Witness for C1 at nx = 3, ny = 2, iy = 1, ix = 2 on a concrete heap. -/
def heap0 : Heap := fun s y x =>
  match s with
  | .ina => (x : ℚ) + 2 * (y : ℚ)
  | .out => 0

theorem subr_element_value_witness :
    (1 : Nat) < 2 ∧ (2 : Nat) < 3 ∧
      subr 3 2 heap0 Slot.out 1 2 = heap0 Slot.ina 1 2 + (2 : ℚ) + (1 : ℚ) :=
  ⟨by decide, by decide, subr_element_value 3 2 heap0 1 2 (by decide) (by decide)⟩

/-- C2: the sliced vector `subr` of csubnpv.py (both branches of its
nx > ny split), the one-line broadcasting `subr` of csubnpna.py and the
numba-decorated `subr` of csubnp-numba.py all leave the two arrays in
exactly the state produced by the naive double loop of csub.py: the four
implementations compute the identical kernel function. -/
theorem kernel_variants_compute_same_function (nx ny : Nat) (h : Heap) :
    subrNpv nx ny h = subr nx ny h
  ∧ subrNpna nx ny h = subr nx ny h
  ∧ subrNumba nx ny h = subr nx ny h := by
  refine ⟨?_, ?_, subrNumba_eq_subr nx ny h⟩
  · funext t
    cases t with
    | ina => rw [subrNpv_ina, subr_ina]
    | out =>
        funext y x
        rw [subrNpv_out, subr_out]
  · funext t
    cases t with
    | ina => rw [subrNpna_ina, subr_ina]
    | out =>
        funext y x
        rw [subrNpna_out, subr_out]

theorem repeatSubr_succ (nx ny m : Nat) (h : Heap) :
    repeatSubr nx ny (m + 1) h = subr nx ny (repeatSubr nx ny m h) := by
  unfold repeatSubr
  rw [List.range_succ, List.foldl_append, List.foldl_cons, List.foldl_nil]

theorem repeatSubr_ina (nx ny m : Nat) (h : Heap) :
    repeatSubr nx ny m h Slot.ina = h Slot.ina := by
  induction m with
  | zero => rfl
  | succ n ih => rw [repeatSubr_succ, subr_ina, ih]

theorem checkError_after_repeat (nx ny m : Nat) (h : Heap) :
    checkError nx ny (repeatSubr nx ny (m + 1) h) = false := by
  rw [repeatSubr_succ]
  unfold checkError
  rw [List.any_eq_false]
  intro iy hiy
  rw [List.mem_range] at hiy
  rw [Bool.not_eq_true, List.any_eq_false]
  intro ix hix
  rw [List.mem_range] at hix
  rw [Bool.not_eq_true, subr_out, subr_ina, if_pos ⟨hiy, hix⟩]
  simp

/-- C10: every kernel variant writes only into the output array: the
input array slot is unchanged by `subr` of csub.py, csubnpv.py,
csubnpna.py and csubnp-numba.py, and by the whole repeat loop of the
main routine; consequently the final verification loop of csub.py,
which compares `out[iy,ix]` with `ina[iy,ix] + (ix + iy)` after all the
repeated calls, finds no error (for at least one call). -/
theorem kernels_leave_ina_unchanged (nx ny n : Nat) (h : Heap) (hn : 1 ≤ n) :
    subr nx ny h Slot.ina = h Slot.ina
  ∧ subrNpv nx ny h Slot.ina = h Slot.ina
  ∧ subrNpna nx ny h Slot.ina = h Slot.ina
  ∧ subrNumba nx ny h Slot.ina = h Slot.ina
  ∧ repeatSubr nx ny n h Slot.ina = h Slot.ina
  ∧ checkError nx ny (repeatSubr nx ny n h) = false := by
  obtain ⟨m, rfl⟩ : ∃ m, n = m + 1 := ⟨n - 1, by omega⟩
  exact ⟨subr_ina nx ny h, subrNpv_ina nx ny h, subrNpna_ina nx ny h,
    subr_ina nx ny h, repeatSubr_ina nx ny (m + 1) h,
    checkError_after_repeat nx ny m h⟩

/-- Witness for C10 at nx = 2, ny = 2, n = 1 on a concrete heap. -/
theorem kernels_leave_ina_unchanged_witness :
    repeatSubr 2 2 1 heap0 Slot.ina = heap0 Slot.ina
  ∧ checkError 2 2 (repeatSubr 2 2 1 heap0) = false := by
  have h := kernels_leave_ina_unchanged 2 2 1 heap0 (by decide)
  exact ⟨h.2.2.2.2.1, h.2.2.2.2.2⟩

/-! ### Run.py: executing external commands

An external command is abstracted by a spawner giving the outcome of
starting it (spawn failure, or an exit code with captured stdout/stderr),
plus — for the timing routine — the wall-clock seconds the caller
observes around the call. -/

/-- Outcome of handing a command list to subprocess.Popen: either the
spawn itself raises, or the subprocess runs to completion with an exit
code and captured output and error streams. -/
inductive SpawnOutcome where
  | fails
  | runs (exitCode : Int) (stdout stderr : String)
deriving DecidableEq

abbrev Spawner := List String → SpawnOutcome

/-- Split a character list at every occurrence of `c` (Python
str.split(c) semantics: empty pieces are kept). -/
def splitChar (c : Char) (l : List Char) : List (List Char) :=
  l.foldr (fun ch acc => if ch = c then [] :: acc else (ch :: acc.headI) :: acc.tail) [[]]

/-- Python `Command.split()`: split on spaces, dropping empty pieces. -/
def pySplit (s : String) : List String :=
  ((splitChar ' ' s.data).map String.mk).filter (fun w => w ≠ "")

/-- Python `s.split("\n")`. -/
def pyLines (s : String) : List String :=
  (splitChar (Char.ofNat 10) s.data).map String.mk

/-- The error string built by ExecuteCommand: `"Error executing '" +
str(Command) + "'"` (for the string commands Run.py passes, `str` is the
identity). -/
def errMsg (c : String) : String := "Error executing " ++ "\x27" ++ c ++ "\x27"

/-- ExecuteCommand from Run.py: splits a string command at spaces, runs
it without a shell, and returns (Status, Output, Errors) with Status None
exactly on a zero exit status, and an error string naming the command on
a nonzero exit or a spawn failure. -/
def ExecuteCommand (sp : Spawner) (Command : String) : Option String × String × String :=
  match sp (pySplit Command) with
  | .fails => (some (errMsg Command), "", "")
  | .runs code out err => (if code ≠ 0 then some (errMsg Command) else none, out, err)

/-- Python truthiness of the Status values Run.py tests with `if (Status):`
(None is falsy, a string is truthy when nonempty). -/
def pyTruthy : Option String → Bool
  | none => false
  | some s => s ≠ ""

/-- C4: ExecuteCommand returns (Status, Output, Errors) where Status is
None exactly when the spawned subprocess exited with status zero; Output
and Errors are the captured standard output and standard error of the
subprocess; and on a nonzero exit or spawn failure Status is an error
string containing the command itself. -/
theorem execute_command_spec (sp : Spawner) (cmd : String) :
    ((ExecuteCommand sp cmd).1 = none ↔ ∃ o e, sp (pySplit cmd) = SpawnOutcome.runs 0 o e)
  ∧ (∀ code o e, sp (pySplit cmd) = SpawnOutcome.runs code o e →
      (ExecuteCommand sp cmd).2.1 = o ∧ (ExecuteCommand sp cmd).2.2 = e)
  ∧ (∀ s, (ExecuteCommand sp cmd).1 = some s → ∃ p q, s = p ++ cmd ++ q) := by
  cases hsp : sp (pySplit cmd) with
  | fails =>
      have hE : ExecuteCommand sp cmd = (some (errMsg cmd), "", "") := by
        unfold ExecuteCommand
        rw [hsp]
      refine ⟨by rw [hE]; simp, by simp, ?_⟩
      intro s hs
      rw [hE] at hs
      simp only [Option.some.injEq] at hs
      exact ⟨"Error executing " ++ "\x27", "\x27", by rw [← hs]; rfl⟩
  | runs code o e =>
      by_cases hc : code = 0
      · subst hc
        have hE : ExecuteCommand sp cmd = (none, o, e) := by
          unfold ExecuteCommand
          rw [hsp]
          simp
        refine ⟨by rw [hE]; simp, ?_, by rw [hE]; simp⟩
        intro code2 o2 e2 heq
        injection heq with h1 h2 h3
        subst h2; subst h3
        exact ⟨by rw [hE], by rw [hE]⟩
      · have hE : ExecuteCommand sp cmd = (some (errMsg cmd), o, e) := by
          unfold ExecuteCommand
          rw [hsp]
          simp [hc]
        refine ⟨by rw [hE]; simp [hc], ?_, ?_⟩
        · intro code2 o2 e2 heq
          injection heq with h1 h2 h3
          subst h2; subst h3
          exact ⟨by rw [hE], by rw [hE]⟩
        · intro s hs
          rw [hE] at hs
          simp only [Option.some.injEq] at hs
          exact ⟨"Error executing " ++ "\x27", "\x27", by rw [← hs]; rfl⟩

/-- A concrete spawner for the C4 witness. -/
def sp0 : Spawner := fun l =>
  if l = ["ls", "-l"] then SpawnOutcome.runs 0 "a" "b" else SpawnOutcome.fails

/-- Witness for C4: on a concrete command that exits 0, Status is None
and Output is the captured stdout. -/
theorem execute_command_spec_witness :
    (ExecuteCommand sp0 "ls -l").1 = none ∧ (ExecuteCommand sp0 "ls -l").2.1 = "a" :=
  ⟨(execute_command_spec sp0 "ls -l").1.mpr ⟨"a", "b", by decide⟩,
   ((execute_command_spec sp0 "ls -l").2.1 0 "a" "b" (by decide)).1⟩

/-! ### Run.py: BuildAndTimeProgram -/

/-- The environment of BuildAndTimeProgram: how each command spawns, and
the wall-clock seconds observed around the timed ExecuteCommand calls. -/
structure TimeEnv where
  spawn : Spawner
  elapsed : String → ℚ

/-- The first statement of BuildAndTimeProgram:
`if (Nrpt < 2) : Nrpt = 2` — at least two repeats are needed to subtract
off the startup and checking overheads. -/
def clampNrpt (Nrpt : Int) : Int := if Nrpt < 2 then 2 else Nrpt

/-- `Command = "%s %d %d %d" % (ExecCommand,Nrpt,Nx,Ny)`. -/
def fmtRunCommand (ExecCommand : String) (Nrpt Nx Ny : Int) : String :=
  ExecCommand ++ " " ++ toString Nrpt ++ " " ++ toString Nx ++ " " ++ toString Ny

/-- The build stage of BuildAndTimeProgram: run BuildCommand1 if nonempty,
and BuildCommand2 if nonempty and the first succeeded. Returns the Status
and Errors variables after the stage, plus the list of commands executed. -/
def buildPhase (sp : Spawner) (B1 B2 : String) : Option String × String × List String :=
  if B1 ≠ "" then
    let r1 := ExecuteCommand sp B1
    if r1.1 = none then
      if B2 ≠ "" then
        let r2 := ExecuteCommand sp B2
        (r2.1, r2.2.2, [B1, B2])
      else (none, r1.2.2, [B1])
    else (r1.1, r1.2.2, [B1])
  else (none, "", [])

/-- The timing stage of BuildAndTimeProgram: run the test program at the
full repeat count and time it, then run it again with a single repeat and
time that, and set `Secs = (Secs - Elapsed) * Nrpt / (Nrpt - 1)`. The
Status and Errors of the full-repeat run are overwritten by those of the
single-repeat run, exactly as in the source. Returns (Status, Secs,
Errors, commands executed). -/
def runPhase (env : TimeEnv) (ExecCommand : String) (Nrpt Nx Ny : Int) :
    Option String × ℚ × String × List String :=
  let CommandA := fmtRunCommand ExecCommand Nrpt Nx Ny
  let _rA := ExecuteCommand env.spawn CommandA
  let SecsA := env.elapsed CommandA
  let CommandB := fmtRunCommand ExecCommand 1 Nx Ny
  let rB := ExecuteCommand env.spawn CommandB
  let SecsB := env.elapsed CommandB
  (rB.1, (SecsA - SecsB) * (Nrpt : ℚ) / ((Nrpt : ℚ) - 1), rB.2.2, [CommandA, CommandB])

/-- The result of BuildAndTimeProgram: the (Status, Secs, Errors) tuple of
the source, plus the trace of commands handed to ExecuteCommand. -/
structure BTResult where
  Status : Option String
  Secs : ℚ
  Errors : String
  log : List String

/-- The cleanup stage of BuildAndTimeProgram: a nonempty cleanup command
is always run, but its status and errors are only reported if everything
else went fine so far. -/
def cleanupPhase (sp : Spawner) (Cleanup : String)
    (rp : Option String × ℚ × String × List String) : BTResult :=
  if Cleanup ≠ "" then
    let rc := ExecuteCommand sp Cleanup
    if rp.1 = none then ⟨rc.1, rp.2.1, rc.2.2, rp.2.2.2 ++ [Cleanup]⟩
    else ⟨rp.1, rp.2.1, rp.2.2.1, rp.2.2.2 ++ [Cleanup]⟩
  else ⟨rp.1, rp.2.1, rp.2.2.1, rp.2.2.2⟩

/-- BuildAndTimeProgram from Run.py: clamp the repeat count to at least 2,
run the build commands, and if they succeeded run the test program twice
(full repeat count, then a single repeat) computing the overhead-adjusted
elapsed seconds, then run the cleanup command if there is one. -/
def BuildAndTimeProgram (env : TimeEnv)
    (BuildCommand1 BuildCommand2 ExecCommand : String)
    (Nrpt0 Nx Ny : Int) (CleanupCommand : String) : BTResult :=
  let Nrpt := clampNrpt Nrpt0
  let bp := buildPhase env.spawn BuildCommand1 BuildCommand2
  let rp : Option String × ℚ × String × List String :=
    if bp.1 = none then
      let r := runPhase env ExecCommand Nrpt Nx Ny
      (r.1, r.2.1, r.2.2.1, bp.2.2 ++ r.2.2.2)
    else (bp.1, 0, bp.2.1, bp.2.2)
  cleanupPhase env.spawn CleanupCommand rp

theorem cleanupPhase_Secs (sp : Spawner) (cl : String)
    (rp : Option String × ℚ × String × List String) :
    (cleanupPhase sp cl rp).Secs = rp.2.1 := by
  unfold cleanupPhase
  by_cases hcl : cl ≠ ""
  · rw [if_pos hcl]
    by_cases hrp : rp.1 = none
    · rw [if_pos hrp]
    · rw [if_neg hrp]
  · rw [if_neg hcl]

theorem cleanupPhase_log (sp : Spawner) (cl : String)
    (rp : Option String × ℚ × String × List String) :
    (cleanupPhase sp cl rp).log = rp.2.2.2 ++ (if cl ≠ "" then [cl] else []) := by
  unfold cleanupPhase
  by_cases hcl : cl ≠ ""
  · rw [if_pos hcl, if_pos hcl]
    by_cases hrp : rp.1 = none
    · rw [if_pos hrp]
    · rw [if_neg hrp]
  · rw [if_neg hcl, if_neg hcl]
    simp

theorem clampNrpt_idem (n : Int) : clampNrpt (clampNrpt n) = clampNrpt n := by
  unfold clampNrpt
  by_cases hn : n < 2
  · rw [if_pos hn]
    norm_num
  · rw [if_neg hn, if_neg hn]

/-- C8: BuildAndTimeProgram raises any repeat count below 2 (including 0,
1 and negative values) to 2 before timing, so the clamped count is always
at least 2, the factor Nrpt/(Nrpt-1) applied after the two timed runs
never divides by zero, and the routine behaves identically on a raw and a
pre-clamped repeat count. -/
theorem clampNrpt_at_least_two (n : Int) :
    2 ≤ clampNrpt n
  ∧ ((clampNrpt n : ℚ) - 1 ≠ 0)
  ∧ ∀ (env : TimeEnv) (B1 B2 cmd : String) (Nx Ny : Int) (cl : String),
      BuildAndTimeProgram env B1 B2 cmd n Nx Ny cl =
        BuildAndTimeProgram env B1 B2 cmd (clampNrpt n) Nx Ny cl := by
  have h2 : 2 ≤ clampNrpt n := by
    unfold clampNrpt
    by_cases hn : n < 2
    · rw [if_pos hn]
    · rw [if_neg hn]
      omega
  refine ⟨h2, ?_, ?_⟩
  · have : (2 : ℚ) ≤ (clampNrpt n : ℚ) := by exact_mod_cast h2
    intro hcontra
    have : (clampNrpt n : ℚ) = 1 := by linarith
    linarith
  · intro env B1 B2 cmd Nx Ny cl
    unfold BuildAndTimeProgram
    rw [clampNrpt_idem]

theorem buildAndTime_Secs_formula (env : TimeEnv)
    (B1 B2 cmd : String) (n Nx Ny : Int) (cl : String)
    (hb : (buildPhase env.spawn B1 B2).1 = none) :
    (BuildAndTimeProgram env B1 B2 cmd n Nx Ny cl).Secs =
      (env.elapsed (fmtRunCommand cmd (clampNrpt n) Nx Ny)
        - env.elapsed (fmtRunCommand cmd 1 Nx Ny))
        * (clampNrpt n : ℚ) / ((clampNrpt n : ℚ) - 1) := by
  simp only [BuildAndTimeProgram]
  rw [if_pos hb, cleanupPhase_Secs]
  rfl

theorem buildAndTime_log_formula (env : TimeEnv)
    (B1 B2 cmd : String) (n Nx Ny : Int) (cl : String)
    (hb : (buildPhase env.spawn B1 B2).1 = none) :
    (BuildAndTimeProgram env B1 B2 cmd n Nx Ny cl).log =
      (buildPhase env.spawn B1 B2).2.2
        ++ [fmtRunCommand cmd (clampNrpt n) Nx Ny, fmtRunCommand cmd 1 Nx Ny]
        ++ (if cl ≠ "" then [cl] else []) := by
  simp only [BuildAndTimeProgram]
  rw [if_pos hb, cleanupPhase_log]
  simp [runPhase]

/-- A concrete environment for C3: every command spawns and exits 0; the
full-repeat run command takes 3 seconds, every other command 1 second. -/
def env0 : TimeEnv where
  spawn := fun _ => SpawnOutcome.runs 0 "" ""
  elapsed := fun c => if c = fmtRunCommand "prog" 2 5 5 then 3 else 1

/-- C3 counterexample: with every command succeeding, a full-repeat
elapsed time of 3 s and a single-repeat elapsed time of 1 s at Nrpt = 2,
BuildAndTimeProgram returns Secs = (3 - 1) * 2 / (2 - 1) = 4, not the
plain difference 3 - 1 = 2 the claim describes: the difference is further
scaled by Nrpt/(Nrpt-1). -/
theorem buildAndTime_secs_not_plain_difference :
    (BuildAndTimeProgram env0 "" "" "prog" 2 5 5 "").Secs = 4
  ∧ env0.elapsed (fmtRunCommand "prog" 2 5 5)
      - env0.elapsed (fmtRunCommand "prog" 1 5 5) = 2
  ∧ (4 : ℚ) ≠ 2 := by
  have hfull : env0.elapsed (fmtRunCommand "prog" 2 5 5) = 3 := by
    show (if fmtRunCommand "prog" 2 5 5 = fmtRunCommand "prog" 2 5 5
      then (3 : ℚ) else 1) = 3
    rw [if_pos rfl]
  have hone : env0.elapsed (fmtRunCommand "prog" 1 5 5) = 1 := by
    show (if fmtRunCommand "prog" 1 5 5 = fmtRunCommand "prog" 2 5 5
      then (3 : ℚ) else 1) = 1
    rw [if_neg (by decide)]
  have hclamp : clampNrpt 2 = 2 := rfl
  have h := buildAndTime_Secs_formula env0 "" "" "prog" 2 5 5 "" rfl
  rw [hclamp] at h
  refine ⟨?_, ?_, by norm_num⟩
  · rw [h, hfull, hone]
    norm_num
  · rw [hfull, hone]
    norm_num

/-- C3 (amended): for every descriptor whose build commands succeed (in
particular when all its commands succeed), BuildAndTimeProgram runs the
test program exactly twice — once at the (clamped) full repeat count Nrpt
and once with a single repeat, between the build commands and the
optional cleanup command — and returns as Secs the elapsed seconds of the
full-repeat run, minus the single-repeat run's elapsed seconds as the
estimated startup/checking overhead, the difference then being scaled by
the factor Nrpt/(Nrpt-1). -/
theorem buildAndTime_runs_twice_and_scales (env : TimeEnv)
    (B1 B2 cmd : String) (n Nx Ny : Int) (cl : String)
    (hb : (buildPhase env.spawn B1 B2).1 = none) :
    (BuildAndTimeProgram env B1 B2 cmd n Nx Ny cl).Secs =
      (env.elapsed (fmtRunCommand cmd (clampNrpt n) Nx Ny)
        - env.elapsed (fmtRunCommand cmd 1 Nx Ny))
        * (clampNrpt n : ℚ) / ((clampNrpt n : ℚ) - 1)
  ∧ (BuildAndTimeProgram env B1 B2 cmd n Nx Ny cl).log =
      (buildPhase env.spawn B1 B2).2.2
        ++ [fmtRunCommand cmd (clampNrpt n) Nx Ny, fmtRunCommand cmd 1 Nx Ny]
        ++ (if cl ≠ "" then [cl] else []) :=
  ⟨buildAndTime_Secs_formula env B1 B2 cmd n Nx Ny cl hb,
   buildAndTime_log_formula env B1 B2 cmd n Nx Ny cl hb⟩

/-- Witness for C3 (amended) in the concrete environment env0. -/
theorem buildAndTime_runs_twice_and_scales_witness :
    (BuildAndTimeProgram env0 "" "" "prog" 2 5 5 "").Secs =
      (env0.elapsed (fmtRunCommand "prog" (clampNrpt 2) 5 5)
        - env0.elapsed (fmtRunCommand "prog" 1 5 5))
        * (clampNrpt 2 : ℚ) / ((clampNrpt 2 : ℚ) - 1)
  ∧ (BuildAndTimeProgram env0 "" "" "prog" 2 5 5 "").log =
      [fmtRunCommand "prog" (clampNrpt 2) 5 5, fmtRunCommand "prog" 1 5 5] := by
  have h := buildAndTime_runs_twice_and_scales env0 "" "" "prog" 2 5 5 "" rfl
  exact ⟨h.1, by rw [h.2]; decide⟩

/-! ### Run.py: ListVersion -/

/-- `str(Status)` for the truthy Status strings printed by ListVersion. -/
def optStr : Option String → String
  | none => "None"
  | some s => s

/-- ListVersion from Run.py, modelled as the list of lines it prints to
the terminal. On a truthy Status it prints the single Unable-to-get-
version line; otherwise it prints one line for the first line of the
captured standard output when that is nonempty, and one line for the
first line of the captured standard error when that is nonempty. -/
def ListVersion (sp : Spawner) (Lang Command : String) : List String :=
  let r := ExecuteCommand sp Command
  if pyTruthy r.1 then
    ["Unable to get version for " ++ Lang ++ " : " ++ optStr r.1]
  else
    let OutputLines := pyLines r.2.1
    let ErrorLines := pyLines r.2.2
    (if 0 < OutputLines.length ∧ OutputLines.headI ≠ ""
      then [Lang ++ " : " ++ OutputLines.headI] else [])
    ++ (if 0 < ErrorLines.length ∧ ErrorLines.headI ≠ ""
      then [Lang ++ " : " ++ ErrorLines.headI] else [])

theorem splitChar_ne_nil (c : Char) (l : List Char) : splitChar c l ≠ [] := by
  induction l with
  | nil => simp [splitChar]
  | cons ch t ih =>
      unfold splitChar
      simp only [List.foldr_cons]
      split <;> simp

theorem pyLines_length_pos (s : String) : 0 < (pyLines s).length := by
  unfold pyLines
  rw [List.length_map]
  exact List.length_pos.mpr (splitChar_ne_nil _ _)

/-- A concrete spawner for the C7 counterexample: the version command
exits 0 and writes a nonempty first line to both standard output and
standard error. -/
def sp7 : Spawner := fun _ => SpawnOutcome.runs 0 "v1.0\nmore" "warning\n"

/-- C7 counterexample: on a successful version command that writes
nonempty first lines to both stdout and stderr, ListVersion prints two
lines, not exactly one. -/
theorem list_version_not_exactly_one_line :
    (ListVersion sp7 "Foo" "foo --version").length = 2 ∧ (2 : Nat) ≠ 1 := by
  refine ⟨by decide, by decide⟩

/-- C7 (amended): when the version-query command fails, ListVersion
prints a single Unable-to-get-version line; when it succeeds, it prints
one line with the toolchain name and the first line of standard output
when that line is nonempty, plus one line with the name and the first
line of standard error when that is nonempty — so zero, one or two lines
rather than always exactly one. -/
theorem list_version_printed_lines (sp : Spawner) (Lang cmd : String) :
    (pyTruthy (ExecuteCommand sp cmd).1 = true →
      ListVersion sp Lang cmd =
        ["Unable to get version for " ++ Lang ++ " : "
          ++ optStr (ExecuteCommand sp cmd).1])
  ∧ (∀ o e, sp (pySplit cmd) = SpawnOutcome.runs 0 o e →
      ListVersion sp Lang cmd =
        (if (pyLines o).headI ≠ "" then [Lang ++ " : " ++ (pyLines o).headI] else [])
        ++ (if (pyLines e).headI ≠ "" then [Lang ++ " : " ++ (pyLines e).headI] else [])) := by
  constructor
  · intro htruthy
    unfold ListVersion
    rw [if_pos htruthy]
  · intro o e hsp
    have hE : ExecuteCommand sp cmd = (none, o, e) := by
      unfold ExecuteCommand
      rw [hsp]
      simp
    unfold ListVersion
    rw [hE]
    simp only [pyTruthy, pyLines_length_pos, true_and, Bool.false_eq_true, if_false]

/-- A concrete spawner for the C7 witness: version on stdout only. -/
def spW : Spawner := fun _ => SpawnOutcome.runs 0 "v1\nrest" ""

/-- Witness for C7 (amended): the success case prints exactly the line
for the first stdout line. -/
theorem list_version_printed_lines_witness :
    ListVersion spW "Gcc" "g++ --version" = ["Gcc : v1"] := by
  have h := (list_version_printed_lines spW "Gcc" "g++ --version").2 "v1\nrest" "" (by decide)
  rw [h]
  decide

/-! ### Run.py: the driver loop, results table and reporting

A test descriptor is one entry of the FullTests registry. The results
table `Results` is a 2D numpy array indexed by the position of the
language/technique and compiler/options labels in the deduplicated sorted
lists LangTechList and CompOptList; since each label pair determines its
index pair, we key the table by the label pair directly. -/

/-- One registry entry: language/technique label, compiler/options label,
up to two build commands, the run command, the repeat count and the
cleanup command. -/
structure TestDesc where
  langTech : String
  compOpt : String
  build1 : String
  build2 : String
  execCmd : String
  nrpt : Int
  cleanup : String

/-- The results table, keyed by (language/technique, compiler/options). -/
abbrev Table := String → String → ℚ

/-- `Results[LangTechIndex,CompOptIndex] = v`. -/
def updTbl (tbl : Table) (L C : String) (v : ℚ) : Table :=
  fun L2 C2 => if L2 = L ∧ C2 = C then v else tbl L2 C2

/-- `KIterSecs = (Secs / float(Nrpt)) * 1000.0`: the time per 1000
iterations. -/
def KIterSecsOf (nrpt : Int) (secs : ℚ) : ℚ := secs / (nrpt : ℚ) * 1000

/-- The table update of the driver loop: record KIterSecs only when it is
positive, and only when the cell is still empty (`<= 0`, i.e. zero) or
the new value is strictly lower than the stored one. -/
def recordResult (tbl : Table) (L C : String) (k : ℚ) : Table :=
  if 0 < k then
    if tbl L C ≤ 0 then updTbl tbl L C k
    else if k < tbl L C then updTbl tbl L C k
    else tbl
  else tbl

/-- One line printed by the driver loop for a test: either the error line
of a failed test, or the result line of a successful one. -/
inductive ReportLine where
  | errorLine (langTech compOpt status errors : String)
  | resultLine (langTech compOpt : String) (nrpt : Int) (secs kIterSecs : ℚ)
deriving DecidableEq

/-- One iteration of the driver's `for Test in FullTests` loop: call
BuildAndTimeProgram, print an error line on a truthy Status, otherwise
print the result line and record the per-1000-iteration time. -/
def runTest (env : TimeEnv) (Nx Ny : Int) (tbl : Table) (t : TestDesc) :
    Table × ReportLine :=
  let r := BuildAndTimeProgram env t.build1 t.build2 t.execCmd t.nrpt Nx Ny t.cleanup
  if pyTruthy r.Status then
    (tbl, .errorLine t.langTech t.compOpt (optStr r.Status) r.Errors)
  else
    (recordResult tbl t.langTech t.compOpt (KIterSecsOf t.nrpt r.Secs),
     .resultLine t.langTech t.compOpt t.nrpt r.Secs (KIterSecsOf t.nrpt r.Secs))

/-- One pass of the driver over the whole registry, accumulating the
table and the printed report lines. -/
def runPass (env : TimeEnv) (Nx Ny : Int) (s : Table × List ReportLine)
    (tests : List TestDesc) : Table × List ReportLine :=
  tests.foldl (fun s2 t =>
    ((runTest env Nx Ny s2.1 t).1, s2.2 ++ [(runTest env Nx Ny s2.1 t).2])) s

/-- The driver's outer `for ITest in range(Ntests)` loop over the passes,
starting from the all-zero table. Pass `i` sees environment `envs i` (the
wall-clock behaviour of each pass differs, which is the point of running
several passes and keeping the lowest time). -/
def FullTestsLoop (envs : Nat → TimeEnv) (Ntests : Nat) (Nx Ny : Int)
    (tests : List TestDesc) : Table × List ReportLine :=
  (List.range Ntests).foldl (fun s i => runPass (envs i) Nx Ny s tests)
    ((fun _ _ => 0), [])

/-- All (pass index, test) pairs processed by FullTestsLoop, in order. -/
def runsOf (Ntests : Nat) (tests : List TestDesc) : List (Nat × TestDesc) :=
  (List.range Ntests).foldl (fun acc i => acc ++ tests.map (fun t => (i, t))) []

/-- The per-1000-iteration time contributed to cell (L, C) by the run of
test `p.2` in pass `p.1`: its KIterSecs when the run is for that key,
succeeds, and has a positive time; nothing otherwise. -/
def obsTime (envs : Nat → TimeEnv) (Nx Ny : Int) (L C : String)
    (p : Nat × TestDesc) : Option ℚ :=
  if p.2.langTech = L ∧ p.2.compOpt = C
      ∧ pyTruthy (BuildAndTimeProgram (envs p.1) p.2.build1 p.2.build2
          p.2.execCmd p.2.nrpt Nx Ny p.2.cleanup).Status = false
      ∧ 0 < KIterSecsOf p.2.nrpt (BuildAndTimeProgram (envs p.1) p.2.build1
          p.2.build2 p.2.execCmd p.2.nrpt Nx Ny p.2.cleanup).Secs
  then some (KIterSecsOf p.2.nrpt (BuildAndTimeProgram (envs p.1) p.2.build1
    p.2.build2 p.2.execCmd p.2.nrpt Nx Ny p.2.cleanup).Secs)
  else none

/-- The per-1000-iteration times of the runs for key (L, C) that succeed
with a positive time, in the order the driver sees them. -/
def observedTimes (envs : Nat → TimeEnv) (Ntests : Nat) (Nx Ny : Int)
    (tests : List TestDesc) (L C : String) : List ℚ :=
  (runsOf Ntests tests).filterMap (obsTime envs Nx Ny L C)

/-- The state of the benchmark search loop of Run.py: the First flag, the
fastest language and compiler seen so far, and BenchKIterSecs. -/
structure BenchState where
  First : Bool
  FastestLangTech : String
  FastestCompOpt : String
  BenchKIterSecs : ℚ
deriving DecidableEq

/-- One cell visit of the benchmark search: a positive Result is the
fastest so far when it is the first positive one or beats the benchmark. -/
def benchStep (tbl : Table) (s : BenchState) (L C : String) : BenchState :=
  let Result := tbl L C
  let FastestSoFar :=
    if 0 < Result then (if s.First then true else Result < s.BenchKIterSecs)
    else false
  if FastestSoFar then ⟨false, L, C, Result⟩ else s

/-- The benchmark search of Run.py: scan every (language, compiler) cell,
starting from First = True, empty fastest labels and BenchKIterSecs = 1.0. -/
def benchSearch (langs comps : List String) (tbl : Table) : BenchState :=
  langs.foldl (fun s L => comps.foldl (fun s2 C => benchStep tbl s2 L C) s)
    ⟨true, "", "", 1⟩

/-- One line of the relative-speed summary: language, compiler, the
cell's KIterSecs and the relative speed KIterSecs / BenchKIterSecs. -/
def summaryLine (tbl : Table) (bench : ℚ) (t : TestDesc) :
    String × String × ℚ × ℚ :=
  (t.langTech, t.compOpt, tbl t.langTech t.compOpt,
    tbl t.langTech t.compOpt / bench)

/-- Python `"%.2f" % q`, on the rational model of the float values: the
value rounded to two decimal places and rendered with exactly two
digits after the point. -/
def fmt2 (q : ℚ) : String :=
  let n : Int := round (q * 100)
  let m : Nat := n.natAbs
  (if n < 0 then "-" else "") ++ toString (m / 100) ++ "."
    ++ (if m % 100 < 10 then "0" else "") ++ toString (m % 100)

/-- One cell of the CSV matrix: `Results[i,j]/BenchKIterSecs` formatted
to two decimals when positive, and an empty field otherwise. -/
def csvField (tbl : Table) (bench : ℚ) (L C : String) : String :=
  if 0 < tbl L C / bench then fmt2 (tbl L C / bench) else ""

/-- One row of the CSV matrix: the compiler label followed by one
comma-prefixed field per language. -/
def csvLine (langs : List String) (tbl : Table) (bench : ℚ) (C : String) : String :=
  langs.foldl (fun line L => line ++ "," ++ csvField tbl bench L C) C

/-- The CSV matrix body: one line per compiler/options label. -/
def csvLines (langs comps : List String) (tbl : Table) (bench : ℚ) : List String :=
  comps.map (csvLine langs tbl bench)

/-! ### Characterizing the results table as a per-cell minimum -/

/-- One run's effect on the table, as a step over (pass, test) pairs. -/
def tblStep (envs : Nat → TimeEnv) (Nx Ny : Int) (tbl : Table)
    (p : Nat × TestDesc) : Table :=
  (runTest (envs p.1) Nx Ny tbl p.2).1

/-- The effect of one recorded positive time on a cell value. -/
def cellStep (v k : ℚ) : ℚ := if v ≤ 0 then k else if k < v then k else v

/-- A cell value after a sequence of recorded positive times. -/
def cellFold (v : ℚ) (l : List ℚ) : ℚ := l.foldl cellStep v

theorem runPass_fst (env : TimeEnv) (Nx Ny : Int) (s : Table × List ReportLine)
    (tests : List TestDesc) :
    (runPass env Nx Ny s tests).1 =
      tests.foldl (fun tb t => (runTest env Nx Ny tb t).1) s.1 := by
  induction tests generalizing s with
  | nil => rfl
  | cons t ts ih =>
      unfold runPass at ih ⊢
      rw [List.foldl_cons, List.foldl_cons]
      exact ih _

theorem runsOf_succ (N : Nat) (tests : List TestDesc) :
    runsOf (N + 1) tests = runsOf N tests ++ tests.map (fun t => (N, t)) := by
  unfold runsOf
  rw [List.range_succ, List.foldl_append, List.foldl_cons, List.foldl_nil]

theorem FullTestsLoop_fst (envs : Nat → TimeEnv) (N : Nat) (Nx Ny : Int)
    (tests : List TestDesc) :
    (FullTestsLoop envs N Nx Ny tests).1 =
      (runsOf N tests).foldl (tblStep envs Nx Ny) (fun _ _ => 0) := by
  induction N with
  | zero => rfl
  | succ n ih =>
      unfold FullTestsLoop at ih ⊢
      rw [List.range_succ, List.foldl_append, List.foldl_cons, List.foldl_nil,
        runsOf_succ, List.foldl_append, runPass_fst, ih, List.foldl_map]
      rfl

theorem runTest_cell (env : TimeEnv) (Nx Ny : Int) (tbl : Table) (t : TestDesc)
    (L C : String) :
    (runTest env Nx Ny tbl t).1 L C =
      if t.langTech = L ∧ t.compOpt = C
          ∧ pyTruthy (BuildAndTimeProgram env t.build1 t.build2 t.execCmd
              t.nrpt Nx Ny t.cleanup).Status = false
          ∧ 0 < KIterSecsOf t.nrpt (BuildAndTimeProgram env t.build1 t.build2
              t.execCmd t.nrpt Nx Ny t.cleanup).Secs
      then cellStep (tbl L C) (KIterSecsOf t.nrpt (BuildAndTimeProgram env
        t.build1 t.build2 t.execCmd t.nrpt Nx Ny t.cleanup).Secs)
      else tbl L C := by
  unfold runTest
  by_cases hst : pyTruthy (BuildAndTimeProgram env t.build1 t.build2 t.execCmd
      t.nrpt Nx Ny t.cleanup).Status = true
  · rw [if_pos hst, if_neg (by simp [hst])]
  · rw [if_neg hst]
    have hst2 : pyTruthy (BuildAndTimeProgram env t.build1 t.build2 t.execCmd
        t.nrpt Nx Ny t.cleanup).Status = false := by
      revert hst
      cases pyTruthy (BuildAndTimeProgram env t.build1 t.build2 t.execCmd
        t.nrpt Nx Ny t.cleanup).Status <;> simp
    show recordResult tbl t.langTech t.compOpt _ L C = _
    unfold recordResult
    by_cases hk : 0 < KIterSecsOf t.nrpt (BuildAndTimeProgram env t.build1
        t.build2 t.execCmd t.nrpt Nx Ny t.cleanup).Secs
    · rw [if_pos hk]
      by_cases hmatch : t.langTech = L ∧ t.compOpt = C
      · obtain ⟨hL, hC⟩ := hmatch
        subst hL; subst hC
        conv_rhs => rw [if_pos ⟨rfl, rfl, hst2, hk⟩]
        unfold cellStep
        by_cases h0 : tbl t.langTech t.compOpt ≤ 0
        · rw [if_pos h0, if_pos h0]
          unfold updTbl
          rw [if_pos ⟨rfl, rfl⟩]
        · rw [if_neg h0, if_neg h0]
          by_cases hlt : KIterSecsOf t.nrpt (BuildAndTimeProgram env t.build1
              t.build2 t.execCmd t.nrpt Nx Ny t.cleanup).Secs < tbl t.langTech t.compOpt
          · rw [if_pos hlt, if_pos hlt]
            unfold updTbl
            rw [if_pos ⟨rfl, rfl⟩]
          · rw [if_neg hlt, if_neg hlt]
      · conv_rhs => rw [if_neg (by tauto)]
        have hne : ¬(L = t.langTech ∧ C = t.compOpt) := by
          intro hcon
          exact hmatch ⟨hcon.1.symm, hcon.2.symm⟩
        by_cases h0 : tbl t.langTech t.compOpt ≤ 0
        · rw [if_pos h0]
          unfold updTbl
          rw [if_neg hne]
        · rw [if_neg h0]
          by_cases hlt : KIterSecsOf t.nrpt (BuildAndTimeProgram env t.build1
              t.build2 t.execCmd t.nrpt Nx Ny t.cleanup).Secs < tbl t.langTech t.compOpt
          · rw [if_pos hlt]
            unfold updTbl
            rw [if_neg hne]
          · rw [if_neg hlt]
    · rw [if_neg hk]
      conv_rhs => rw [if_neg (by tauto)]

theorem foldl_cell (envs : Nat → TimeEnv) (Nx Ny : Int) (L C : String)
    (rs : List (Nat × TestDesc)) (tbl : Table) :
    (rs.foldl (tblStep envs Nx Ny) tbl) L C =
      cellFold (tbl L C) (rs.filterMap (obsTime envs Nx Ny L C)) := by
  induction rs generalizing tbl with
  | nil => rfl
  | cons p ps ih =>
      rw [List.foldl_cons, List.filterMap_cons]
      by_cases hcond : p.2.langTech = L ∧ p.2.compOpt = C
          ∧ pyTruthy (BuildAndTimeProgram (envs p.1) p.2.build1 p.2.build2
              p.2.execCmd p.2.nrpt Nx Ny p.2.cleanup).Status = false
          ∧ 0 < KIterSecsOf p.2.nrpt (BuildAndTimeProgram (envs p.1) p.2.build1
              p.2.build2 p.2.execCmd p.2.nrpt Nx Ny p.2.cleanup).Secs
      · rw [show obsTime envs Nx Ny L C p = some (KIterSecsOf p.2.nrpt
            (BuildAndTimeProgram (envs p.1) p.2.build1 p.2.build2 p.2.execCmd
              p.2.nrpt Nx Ny p.2.cleanup).Secs) by unfold obsTime; rw [if_pos hcond]]
        rw [ih]
        unfold cellFold
        rw [List.foldl_cons]
        have hcell : tblStep envs Nx Ny tbl p L C =
            cellStep (tbl L C) (KIterSecsOf p.2.nrpt (BuildAndTimeProgram
              (envs p.1) p.2.build1 p.2.build2 p.2.execCmd p.2.nrpt Nx Ny
              p.2.cleanup).Secs) := by
          unfold tblStep
          rw [runTest_cell, if_pos hcond]
        rw [hcell]
      · rw [show obsTime envs Nx Ny L C p = none by
            unfold obsTime; rw [if_neg hcond]]
        rw [ih]
        have hcell : tblStep envs Nx Ny tbl p L C = tbl L C := by
          unfold tblStep
          rw [runTest_cell, if_neg hcond]
        rw [hcell]

theorem cellFold_min (l : List ℚ) : ∀ v : ℚ, 0 < v → (∀ k ∈ l, 0 < k) →
    cellFold v l ∈ v :: l ∧ ∀ w ∈ v :: l, cellFold v l ≤ w := by
  induction l with
  | nil =>
      intro v hv hl
      refine ⟨by simp [cellFold], ?_⟩
      intro w hw
      rw [List.mem_singleton] at hw
      subst hw
      exact le_refl _
  | cons k rest ih =>
      intro v hv hl
      have hk : 0 < k := hl k (by simp)
      have hrest : ∀ x ∈ rest, 0 < x := fun x hx => hl x (by simp [hx])
      have hstep : cellFold v (k :: rest) = cellFold (cellStep v k) rest := by
        unfold cellFold
        rw [List.foldl_cons]
      have hv2 : 0 < cellStep v k := by
        unfold cellStep
        rw [if_neg (by linarith)]
        by_cases hlt : k < v
        · rw [if_pos hlt]; exact hk
        · rw [if_neg hlt]; exact hv
      have hle_v : cellStep v k ≤ v := by
        unfold cellStep
        rw [if_neg (by linarith)]
        by_cases hlt : k < v
        · rw [if_pos hlt]; linarith
        · rw [if_neg hlt]
      have hle_k : cellStep v k ≤ k := by
        unfold cellStep
        rw [if_neg (by linarith)]
        by_cases hlt : k < v
        · rw [if_pos hlt]
        · rw [if_neg hlt]; linarith
      have hmem_vk : cellStep v k = v ∨ cellStep v k = k := by
        unfold cellStep
        rw [if_neg (by linarith)]
        by_cases hlt : k < v
        · rw [if_pos hlt]; right; rfl
        · rw [if_neg hlt]; left; rfl
      obtain ⟨ihmem, ihle⟩ := ih (cellStep v k) hv2 hrest
      rw [hstep]
      constructor
      · rcases List.mem_cons.mp ihmem with hcase | hcase
        · rcases hmem_vk with hvk | hvk
          · rw [hcase, hvk]; simp
          · rw [hcase, hvk]; simp
        · simp [hcase]
      · intro w hw
        rcases List.mem_cons.mp hw with hcase | hcase
        · subst hcase
          exact le_trans (ihle _ (by simp)) hle_v
        · rcases List.mem_cons.mp hcase with hcase2 | hcase2
          · subst hcase2
            exact le_trans (ihle _ (by simp)) hle_k
          · exact ihle w (by simp [hcase2])

theorem cellFold_from_zero (l : List ℚ) (hl : ∀ k ∈ l, 0 < k) :
    (l = [] → cellFold 0 l = 0)
  ∧ (l ≠ [] → cellFold 0 l ∈ l ∧ ∀ w ∈ l, cellFold 0 l ≤ w) := by
  cases l with
  | nil => exact ⟨fun _ => rfl, fun hne => absurd rfl hne⟩
  | cons k rest =>
      refine ⟨by simp, fun _ => ?_⟩
      have hck : cellStep 0 k = k := by simp [cellStep]
      have h0 : cellFold 0 (k :: rest) = cellFold k rest := by
        unfold cellFold
        rw [List.foldl_cons, hck]
      rw [h0]
      have hk : 0 < k := hl k (by simp)
      have hrest : ∀ x ∈ rest, 0 < x := fun x hx => hl x (by simp [hx])
      exact cellFold_min rest k hk hrest

theorem observedTimes_pos (envs : Nat → TimeEnv) (Ntests : Nat) (Nx Ny : Int)
    (tests : List TestDesc) (L C : String) :
    ∀ k ∈ observedTimes envs Ntests Nx Ny tests L C, 0 < k := by
  intro k hk
  unfold observedTimes at hk
  rw [List.mem_filterMap] at hk
  obtain ⟨p, _, hsome⟩ := hk
  unfold obsTime at hsome
  split at hsome
  · injection hsome with h
    subst h
    rename_i hcond
    exact hcond.2.2.2
  · cases hsome

/-- C5: per pass and test run, the driver updates the results cell of the
test's (language/technique, compiler/options) pair only when the run
succeeds with a positive per-1000-iteration time, and only when the cell
is still zero or the new time is strictly lower; hence after all passes
each cell holds the lowest positive time observed for its pair across all
passes, and zero when no run for that pair succeeded with a positive
time. -/
theorem results_cell_holds_lowest (envs : Nat → TimeEnv) (Ntests : Nat)
    (Nx Ny : Int) (tests : List TestDesc) (L C : String) :
    ((observedTimes envs Ntests Nx Ny tests L C = [] →
        (FullTestsLoop envs Ntests Nx Ny tests).1 L C = 0)
  ∧ (observedTimes envs Ntests Nx Ny tests L C ≠ [] →
        (FullTestsLoop envs Ntests Nx Ny tests).1 L C
            ∈ observedTimes envs Ntests Nx Ny tests L C
        ∧ ∀ k ∈ observedTimes envs Ntests Nx Ny tests L C,
            (FullTestsLoop envs Ntests Nx Ny tests).1 L C ≤ k))
  ∧ (∀ (env : TimeEnv) (tbl : Table) (t : TestDesc),
      (runTest env Nx Ny tbl t).1 = tbl
      ∨ ∃ k, 0 < k
          ∧ (tbl t.langTech t.compOpt ≤ 0 ∨ k < tbl t.langTech t.compOpt)
          ∧ (runTest env Nx Ny tbl t).1 = updTbl tbl t.langTech t.compOpt k) := by
  have htbl : (FullTestsLoop envs Ntests Nx Ny tests).1 L C =
      cellFold 0 (observedTimes envs Ntests Nx Ny tests L C) := by
    rw [FullTestsLoop_fst]
    exact foldl_cell envs Nx Ny L C (runsOf Ntests tests) (fun _ _ => 0)
  have hpos := observedTimes_pos envs Ntests Nx Ny tests L C
  refine ⟨⟨?_, ?_⟩, ?_⟩
  · intro hnil
    rw [htbl]
    exact (cellFold_from_zero _ hpos).1 hnil
  · intro hne
    rw [htbl]
    exact (cellFold_from_zero _ hpos).2 hne
  · intro env tbl t
    unfold runTest
    by_cases hst : pyTruthy (BuildAndTimeProgram env t.build1 t.build2
        t.execCmd t.nrpt Nx Ny t.cleanup).Status = true
    · left
      rw [if_pos hst]
    · rw [if_neg hst]
      show recordResult tbl t.langTech t.compOpt _ = tbl ∨ _
      unfold recordResult
      by_cases hk : 0 < KIterSecsOf t.nrpt (BuildAndTimeProgram env t.build1
          t.build2 t.execCmd t.nrpt Nx Ny t.cleanup).Secs
      · rw [if_pos hk]
        by_cases h0 : tbl t.langTech t.compOpt ≤ 0
        · right
          exact ⟨_, hk, Or.inl h0, by rw [if_pos h0]⟩
        · rw [if_neg h0]
          by_cases hlt : KIterSecsOf t.nrpt (BuildAndTimeProgram env t.build1
              t.build2 t.execCmd t.nrpt Nx Ny t.cleanup).Secs < tbl t.langTech t.compOpt
          · right
            exact ⟨_, hk, Or.inr hlt, by rw [if_pos hlt]⟩
          · left
            rw [if_neg hlt]
      · left
        rw [if_neg hk]

/-- A concrete descriptor for the driver witnesses. -/
def test0 : TestDesc :=
  ⟨"Python : lists", "Python3", "", "", "prog", 2, ""⟩

/-- Pass environments for the driver witnesses: every pass behaves as env0. -/
def envs0 : Nat → TimeEnv := fun _ => env0

theorem env0_Status :
    (BuildAndTimeProgram env0 "" "" "prog" 2 5 5 "").Status = none := rfl

theorem env0_Secs : (BuildAndTimeProgram env0 "" "" "prog" 2 5 5 "").Secs = 4 := by
  rw [buildAndTime_Secs_formula env0 "" "" "prog" 2 5 5 "" rfl]
  have hfull : env0.elapsed (fmtRunCommand "prog" (clampNrpt 2) 5 5) = 3 := by
    show (if fmtRunCommand "prog" (clampNrpt 2) 5 5 = fmtRunCommand "prog" 2 5 5
      then (3 : ℚ) else 1) = 3
    rw [if_pos (by decide)]
  have hone : env0.elapsed (fmtRunCommand "prog" 1 5 5) = 1 := by
    show (if fmtRunCommand "prog" 1 5 5 = fmtRunCommand "prog" 2 5 5
      then (3 : ℚ) else 1) = 1
    rw [if_neg (by decide)]
  rw [hfull, hone]
  norm_num [clampNrpt]

theorem obs0_eval :
    observedTimes envs0 1 5 5 [test0] "Python : lists" "Python3" =
      [KIterSecsOf 2 4] := by
  have hrs : runsOf 1 [test0] = [(0, test0)] := rfl
  unfold observedTimes
  rw [hrs]
  have hcond : obsTime envs0 5 5 "Python : lists" "Python3" (0, test0) =
      some (KIterSecsOf 2 4) := by
    unfold obsTime
    simp only [envs0, test0]
    rw [env0_Status, env0_Secs]
    norm_num [pyTruthy, KIterSecsOf]
  rw [List.filterMap_cons, hcond, List.filterMap_nil]

/-- Witness for C5: one pass over the single concrete descriptor in env0
produces a nonempty observation list, and the final cell value is one of
the observed times. -/
theorem results_cell_holds_lowest_witness :
    observedTimes envs0 1 5 5 [test0] "Python : lists" "Python3" ≠ []
  ∧ (FullTestsLoop envs0 1 5 5 [test0]).1 "Python : lists" "Python3"
      ∈ observedTimes envs0 1 5 5 [test0] "Python : lists" "Python3" := by
  have hne : observedTimes envs0 1 5 5 [test0] "Python : lists" "Python3" ≠ [] := by
    rw [obs0_eval]
    simp
  exact ⟨hne,
    ((results_cell_holds_lowest envs0 1 5 5 [test0] "Python : lists"
      "Python3").1.2 hne).1⟩

/-! ### The benchmark search -/

/-- The (language, compiler) cell visit order of the benchmark search. -/
def benchPairs (langs comps : List String) : List (String × String) :=
  match langs with
  | [] => []
  | L :: ls => comps.map (fun C => (L, C)) ++ benchPairs ls comps

theorem benchSearch_pairs_aux (comps : List String) (tbl : Table) :
    ∀ (langs : List String) (s0 : BenchState),
    langs.foldl (fun s L => comps.foldl (fun s2 C => benchStep tbl s2 L C) s) s0 =
      (benchPairs langs comps).foldl (fun s p => benchStep tbl s p.1 p.2) s0 := by
  intro langs
  induction langs with
  | nil => intro s0; rfl
  | cons L ls ih =>
      intro s0
      show ls.foldl _ (comps.foldl (fun s2 C => benchStep tbl s2 L C) s0) = _
      unfold benchPairs
      rw [List.foldl_append, List.foldl_map, ih]

theorem benchSearch_pairs (langs comps : List String) (tbl : Table) :
    benchSearch langs comps tbl =
      (benchPairs langs comps).foldl (fun s p => benchStep tbl s p.1 p.2)
        ⟨true, "", "", 1⟩ := by
  unfold benchSearch
  exact benchSearch_pairs_aux comps tbl langs _

theorem mem_benchPairs (L C : String) (langs comps : List String) :
    (L, C) ∈ benchPairs langs comps ↔ L ∈ langs ∧ C ∈ comps := by
  induction langs with
  | nil => simp [benchPairs]
  | cons a ls ih =>
      unfold benchPairs
      rw [List.mem_append, ih]
      simp only [List.mem_map, List.mem_cons, Prod.mk.injEq]
      constructor
      · rintro (⟨c, hc, hL, hC⟩ | ⟨hL, hC⟩)
        · subst hL; subst hC
          exact ⟨Or.inl rfl, hc⟩
        · exact ⟨Or.inr hL, hC⟩
      · rintro ⟨hL | hL, hC⟩
        · subst hL
          exact Or.inl ⟨C, hC, rfl, rfl⟩
        · exact Or.inr ⟨hL, hC⟩

/-- Invariant of the benchmark search over the processed cells S: while
First is still set nothing positive was seen and the state is the initial
one; once First is cleared the state holds a positive cell of S that is a
lower bound on every positive cell of S. -/
def BenchInv (tbl : Table) (S : List (String × String)) (s : BenchState) : Prop :=
  (s.First = true → s = ⟨true, "", "", 1⟩ ∧ ∀ p ∈ S, ¬ 0 < tbl p.1 p.2)
  ∧ (s.First = false →
      (s.FastestLangTech, s.FastestCompOpt) ∈ S
      ∧ tbl s.FastestLangTech s.FastestCompOpt = s.BenchKIterSecs
      ∧ 0 < s.BenchKIterSecs
      ∧ ∀ p ∈ S, 0 < tbl p.1 p.2 → s.BenchKIterSecs ≤ tbl p.1 p.2)

theorem benchStep_eq (tbl : Table) (s : BenchState) (L C : String) :
    benchStep tbl s L C =
      if 0 < tbl L C ∧ (s.First = true ∨ tbl L C < s.BenchKIterSecs)
      then ⟨false, L, C, tbl L C⟩ else s := by
  simp only [benchStep]
  by_cases hpos : 0 < tbl L C
  · rw [if_pos hpos]
    cases hF : s.First
    · simp only [Bool.false_eq_true, if_false]
      by_cases hlt : tbl L C < s.BenchKIterSecs
      · rw [if_pos (by simp [hlt]), if_pos ⟨hpos, Or.inr hlt⟩]
      · rw [if_neg (by simp [hlt]), if_neg (by simp [hlt])]
    · rw [if_pos rfl, if_pos rfl, if_pos ⟨hpos, Or.inl rfl⟩]
  · rw [if_neg hpos]
    rw [if_neg (by simp), if_neg (by tauto)]

theorem benchStep_inv (tbl : Table) (S : List (String × String))
    (s : BenchState) (hinv : BenchInv tbl S s) (L C : String) :
    BenchInv tbl (S ++ [(L, C)]) (benchStep tbl s L C) := by
  obtain ⟨h1, h2⟩ := hinv
  rw [benchStep_eq]
  by_cases hcond : 0 < tbl L C ∧ (s.First = true ∨ tbl L C < s.BenchKIterSecs)
  · rw [if_pos hcond]
    obtain ⟨hpos, hOr⟩ := hcond
    constructor
    · intro h
      simp at h
    · intro _
      refine ⟨by simp, rfl, hpos, ?_⟩
      intro p hp hppos
      rcases List.mem_append.mp hp with hpS | hpLC
      · cases hsF : s.First
        · rcases hOr with hF | hlt
          · rw [hsF] at hF
            cases hF
          · exact le_trans (le_of_lt hlt) ((h2 hsF).2.2.2 p hpS hppos)
        · exact absurd hppos ((h1 hsF).2 p hpS)
      · rw [List.mem_singleton] at hpLC
        subst hpLC
        exact le_refl _
  · rw [if_neg hcond]
    push_neg at hcond
    constructor
    · intro hF
      obtain ⟨hinit, hnone⟩ := h1 hF
      refine ⟨hinit, ?_⟩
      intro p hp
      rcases List.mem_append.mp hp with hpS | hpLC
      · exact hnone p hpS
      · rw [List.mem_singleton] at hpLC
        subst hpLC
        intro hppos
        exact (hcond hppos).1 hF
    · intro hF
      obtain ⟨hmem, hval, hbpos, hbound⟩ := h2 hF
      refine ⟨List.mem_append.mpr (Or.inl hmem), hval, hbpos, ?_⟩
      intro p hp hppos
      rcases List.mem_append.mp hp with hpS | hpLC
      · exact hbound p hpS hppos
      · rw [List.mem_singleton] at hpLC
        subst hpLC
        exact (hcond hppos).2

theorem benchFold_inv (tbl : Table) (ps : List (String × String)) :
    ∀ (S : List (String × String)) (s : BenchState), BenchInv tbl S s →
    BenchInv tbl (S ++ ps) (ps.foldl (fun s2 p => benchStep tbl s2 p.1 p.2) s) := by
  induction ps with
  | nil => intro S s h; simpa using h
  | cons p rest ih =>
      intro S s h
      rw [List.foldl_cons]
      have hstep := benchStep_inv tbl S s h p.1 p.2
      have hrec := ih (S ++ [(p.1, p.2)]) _ hstep
      have hSS : S ++ [(p.1, p.2)] ++ rest = S ++ p :: rest := by
        rw [List.append_assoc]
        rfl
      rw [hSS] at hrec
      exact hrec

theorem benchSearch_inv (langs comps : List String) (tbl : Table) :
    BenchInv tbl (benchPairs langs comps) (benchSearch langs comps tbl) := by
  rw [benchSearch_pairs]
  have hinit : BenchInv tbl [] (⟨true, "", "", 1⟩ : BenchState) := by
    constructor
    · intro _
      exact ⟨rfl, by simp⟩
    · intro h
      cases h
  have h := benchFold_inv tbl (benchPairs langs comps) [] _ hinit
  simpa using h

theorem benchSearch_zero (langs comps : List String) (tbl : Table)
    (h : ∀ L C, tbl L C = 0) :
    benchSearch langs comps tbl = ⟨true, "", "", 1⟩ := by
  have hinv := benchSearch_inv langs comps tbl
  cases hF : (benchSearch langs comps tbl).First
  · obtain ⟨hmem, hval, hbpos, _⟩ := hinv.2 hF
    rw [h _ _] at hval
    rw [← hval] at hbpos
    exact absurd hbpos (by norm_num)
  · exact (hinv.1 hF).1

/-- C6: after all passes the normalization baseline BenchKIterSecs is the
smallest positive entry of the results table and the Fastest labels name
a cell holding it; the summary reports each descriptor's relative speed
as its cell divided by the baseline, so the fastest cell's relative time
is 1.0; and each CSV matrix cell prints that same ratio to two decimals,
with cells whose entry is zero (not positive) printed as empty fields. -/
theorem benchmark_baseline_and_reports (langs comps : List String) (tbl : Table)
    (h : ∃ L ∈ langs, ∃ C ∈ comps, 0 < tbl L C) :
    (benchSearch langs comps tbl).First = false
  ∧ (benchSearch langs comps tbl).FastestLangTech ∈ langs
  ∧ (benchSearch langs comps tbl).FastestCompOpt ∈ comps
  ∧ 0 < (benchSearch langs comps tbl).BenchKIterSecs
  ∧ tbl (benchSearch langs comps tbl).FastestLangTech
        (benchSearch langs comps tbl).FastestCompOpt
      = (benchSearch langs comps tbl).BenchKIterSecs
  ∧ (∀ L ∈ langs, ∀ C ∈ comps, 0 < tbl L C →
      (benchSearch langs comps tbl).BenchKIterSecs ≤ tbl L C)
  ∧ (∀ t : TestDesc,
      (summaryLine tbl (benchSearch langs comps tbl).BenchKIterSecs t).2.2.2
        = tbl t.langTech t.compOpt / (benchSearch langs comps tbl).BenchKIterSecs)
  ∧ tbl (benchSearch langs comps tbl).FastestLangTech
        (benchSearch langs comps tbl).FastestCompOpt
      / (benchSearch langs comps tbl).BenchKIterSecs = 1
  ∧ (∀ L C, tbl L C ≤ 0 →
      csvField tbl (benchSearch langs comps tbl).BenchKIterSecs L C = "")
  ∧ (∀ L C, 0 < tbl L C →
      csvField tbl (benchSearch langs comps tbl).BenchKIterSecs L C =
        fmt2 ((summaryLine tbl (benchSearch langs comps tbl).BenchKIterSecs
          ⟨L, C, "", "", "", 0, ""⟩).2.2.2)) := by
  have hinv := benchSearch_inv langs comps tbl
  have hF : (benchSearch langs comps tbl).First = false := by
    cases hFc : (benchSearch langs comps tbl).First
    · rfl
    · obtain ⟨L, hL, C, hC, hpos⟩ := h
      exact absurd hpos
        ((hinv.1 hFc).2 (L, C) ((mem_benchPairs L C langs comps).mpr ⟨hL, hC⟩))
  obtain ⟨hmem, hval, hbpos, hbound⟩ := hinv.2 hF
  have hmem2 := (mem_benchPairs _ _ langs comps).mp hmem
  refine ⟨hF, hmem2.1, hmem2.2, hbpos, hval, ?_, ?_, ?_, ?_, ?_⟩
  · intro L hL C hC hpos
    exact hbound (L, C) ((mem_benchPairs L C langs comps).mpr ⟨hL, hC⟩) hpos
  · intro t
    rfl
  · rw [hval]
    exact div_self (ne_of_gt hbpos)
  · intro L C hle
    unfold csvField
    have hnp : tbl L C / (benchSearch langs comps tbl).BenchKIterSecs ≤ 0 :=
      div_nonpos_iff.mpr (Or.inr ⟨hle, le_of_lt hbpos⟩)
    rw [if_neg (not_lt.mpr hnp)]
  · intro L C hpos
    unfold csvField
    rw [if_pos (div_pos hpos hbpos)]
    rfl

/-- A concrete results table for the C6 witness. -/
def tbl0 : Table := fun L C =>
  if L = "A" ∧ C = "X" then 2 else if L = "B" ∧ C = "X" then 4 else 0

/-- Witness for C6 on a concrete two-language table. -/
theorem benchmark_baseline_and_reports_witness :
    (benchSearch ["A", "B"] ["X"] tbl0).First = false
  ∧ 0 < (benchSearch ["A", "B"] ["X"] tbl0).BenchKIterSecs := by
  have h := benchmark_baseline_and_reports ["A", "B"] ["X"] tbl0
    ⟨"A", by simp, "X", by simp, by norm_num [tbl0]⟩
  exact ⟨h.1, h.2.2.2.1⟩

/-- C9: every results-table entry stays nonnegative through the driver: a
run that fails, or whose overhead-adjusted per-1000-iteration time comes
out zero or negative (possible, since the baseline subtraction can exceed
the full-run time), is reported on the terminal — as an error line or a
result line — but never stored in the table, so such a run can never
become the normalization baseline; and when no run at all succeeds with a
positive time, every cell stays zero, the baseline remains 1.0 and the
fastest language and compiler are reported as empty strings. -/
theorem failed_runs_never_stored (Nx Ny : Int) :
    (∀ (env : TimeEnv) (tbl : Table) (t : TestDesc),
        (∀ L C, 0 ≤ tbl L C) → ∀ L C, 0 ≤ (runTest env Nx Ny tbl t).1 L C)
  ∧ (∀ (env : TimeEnv) (tbl : Table) (t : TestDesc),
        pyTruthy (BuildAndTimeProgram env t.build1 t.build2 t.execCmd t.nrpt
          Nx Ny t.cleanup).Status = true →
        runTest env Nx Ny tbl t = (tbl,
          ReportLine.errorLine t.langTech t.compOpt
            (optStr (BuildAndTimeProgram env t.build1 t.build2 t.execCmd
              t.nrpt Nx Ny t.cleanup).Status)
            (BuildAndTimeProgram env t.build1 t.build2 t.execCmd t.nrpt Nx Ny
              t.cleanup).Errors))
  ∧ (∀ (env : TimeEnv) (tbl : Table) (t : TestDesc),
        pyTruthy (BuildAndTimeProgram env t.build1 t.build2 t.execCmd t.nrpt
          Nx Ny t.cleanup).Status = false →
        KIterSecsOf t.nrpt (BuildAndTimeProgram env t.build1 t.build2
          t.execCmd t.nrpt Nx Ny t.cleanup).Secs ≤ 0 →
        runTest env Nx Ny tbl t = (tbl,
          ReportLine.resultLine t.langTech t.compOpt t.nrpt
            (BuildAndTimeProgram env t.build1 t.build2 t.execCmd t.nrpt Nx Ny
              t.cleanup).Secs
            (KIterSecsOf t.nrpt (BuildAndTimeProgram env t.build1 t.build2
              t.execCmd t.nrpt Nx Ny t.cleanup).Secs)))
  ∧ (∀ (envs : Nat → TimeEnv) (Ntests : Nat) (tests : List TestDesc)
        (langs comps : List String),
        (∀ p ∈ runsOf Ntests tests,
          pyTruthy (BuildAndTimeProgram (envs p.1) p.2.build1 p.2.build2
            p.2.execCmd p.2.nrpt Nx Ny p.2.cleanup).Status = true
          ∨ KIterSecsOf p.2.nrpt (BuildAndTimeProgram (envs p.1) p.2.build1
              p.2.build2 p.2.execCmd p.2.nrpt Nx Ny p.2.cleanup).Secs ≤ 0) →
        (∀ L C, (FullTestsLoop envs Ntests Nx Ny tests).1 L C = 0)
        ∧ benchSearch langs comps (FullTestsLoop envs Ntests Nx Ny tests).1 =
            ⟨true, "", "", 1⟩) := by
  refine ⟨?_, ?_, ?_, ?_⟩
  · intro env tbl t hnn L C
    rw [runTest_cell]
    split
    · rename_i hcond
      unfold cellStep
      split
      · exact le_of_lt hcond.2.2.2
      · split
        · exact le_of_lt hcond.2.2.2
        · exact hnn L C
    · exact hnn L C
  · intro env tbl t hst
    unfold runTest
    rw [if_pos hst]
  · intro env tbl t hst hk0
    unfold runTest
    rw [if_neg (by simp [hst])]
    have hrec : recordResult tbl t.langTech t.compOpt
        (KIterSecsOf t.nrpt (BuildAndTimeProgram env t.build1 t.build2
          t.execCmd t.nrpt Nx Ny t.cleanup).Secs) = tbl := by
      unfold recordResult
      rw [if_neg (not_lt.mpr hk0)]
    rw [hrec]
  · intro envs Ntests tests langs comps hall
    have hzero : ∀ L C, (FullTestsLoop envs Ntests Nx Ny tests).1 L C = 0 := by
      intro L C
      rw [FullTestsLoop_fst, foldl_cell]
      have hnil : (runsOf Ntests tests).filterMap (obsTime envs Nx Ny L C) = [] := by
        rw [List.filterMap_eq_nil_iff]
        intro p hp
        unfold obsTime
        rw [if_neg (by
          rintro ⟨-, -, hstat, hpos⟩
          rcases hall p hp with hf | hf
          · rw [hstat] at hf
            cases hf
          · exact absurd hpos (not_lt.mpr hf))]
      rw [hnil]
      rfl
    exact ⟨hzero, benchSearch_zero langs comps _ hzero⟩

/-- An environment in which every spawn fails, for the C9 witness. -/
def envF : TimeEnv where
  spawn := fun _ => SpawnOutcome.fails
  elapsed := fun _ => 1

/-- Witness for C9: a failing run leaves the zero table unchanged and
nonnegative, and with every run failing the benchmark search returns the
initial state (baseline 1, empty fastest labels). -/
theorem failed_runs_never_stored_witness :
    0 ≤ (runTest envF 5 5 (fun _ _ => 0) test0).1 "A" "X"
  ∧ (runTest envF 5 5 (fun _ _ => 0) test0).1 = (fun _ _ => 0)
  ∧ benchSearch ["A"] ["X"] (FullTestsLoop (fun _ => envF) 1 5 5 [test0]).1 =
      ⟨true, "", "", 1⟩ := by
  have h := failed_runs_never_stored 5 5
  have hst : pyTruthy (BuildAndTimeProgram envF test0.build1 test0.build2
      test0.execCmd test0.nrpt 5 5 test0.cleanup).Status = true := by decide
  refine ⟨h.1 envF (fun _ _ => 0) test0 (fun _ _ => le_refl 0) "A" "X", ?_, ?_⟩
  · rw [h.2.1 envF (fun _ _ => 0) test0 hst]
  · have hall : ∀ p ∈ runsOf 1 [test0],
        pyTruthy (BuildAndTimeProgram ((fun _ => envF) p.1) p.2.build1
          p.2.build2 p.2.execCmd p.2.nrpt 5 5 p.2.cleanup).Status = true
        ∨ KIterSecsOf p.2.nrpt (BuildAndTimeProgram ((fun _ => envF) p.1)
            p.2.build1 p.2.build2 p.2.execCmd p.2.nrpt 5 5 p.2.cleanup).Secs ≤ 0 := by
      intro p hp
      have hp2 : p = (0, test0) := by
        have hr : runsOf 1 [test0] = [(0, test0)] := rfl
        rw [hr] at hp
        simpa using hp
      subst hp2
      left
      exact hst
    exact (h.2.2.2 (fun _ => envF) 1 [test0] ["A"] ["X"] hall).2
